import Mathlib

/-!
Verification of the rate-limiting core of `xero-rs-async`
(`src/rate_limiter.rs`), shallowly embedded in Lean.

Timestamps are `Int` epoch seconds (the Rust code uses `i64`).  Time in the
model advances only while the caller sleeps inside the minute-window retry
loop; `now0` is the instant read once at the top of `acquire_permit`
(line 78 of `rate_limiter.rs`), the loop re-reads the clock each iteration,
which the model renders as `now0` plus the accumulated sleep time.  The
concurrency semaphore, the per-tenant mutex, the sleeps and the persistence
write are recorded as an explicit event trace so that claims about locking,
waiting and slot release can be stated.
-/

namespace XeroRL

/-- `CONCURRENT_LIMIT` from `rate_limiter.rs`. -/
def CONCURRENT_LIMIT : Nat := 5

/-- `MINUTE_LIMIT` from `rate_limiter.rs`. -/
def MINUTE_LIMIT : Nat := 60

/-- `DAILY_LIMIT` from `rate_limiter.rs`. -/
def DAILY_LIMIT : Nat := 5000

/-- `RATE_LIMIT_BUFFER` from `rate_limiter.rs`. -/
def RATE_LIMIT_BUFFER : Nat := 2

/-- Observable steps of one `acquire_permit` call.  `semAcq`/`semRel` are the
concurrency-semaphore acquisition and release, `lockAcq`/`lockRel` the
per-tenant mutex, `check` records one iteration of the retry loop (the
instant `now` it read, `requests_in_last_day` and `requests_in_last_minute`
it computed), `sleeping w` a `sleep(Duration::from_secs(w))`, `append t` the
`push_back` of timestamp `t`, and `saveAttempt` the call to `save_state`. -/
inductive Event where
  | semAcq : Event
  | semRel : Event
  | lockAcq : Event
  | lockRel : Event
  | check : Int → Nat → Nat → Event
  | sleeping : Int → Event
  | append : Int → Event
  | saveAttempt : Event
deriving DecidableEq, Repr

/-- Result of one `acquire_permit` call: `ok` means the caller received the
permit, `dailyErr` the `XeroError::RateLimiter` daily-exhaustion error,
`ioErr` an I/O error propagated from `save_state`. -/
inductive RLResult where
  | ok : RLResult
  | dailyErr : RLResult
  | ioErr : RLResult
deriving DecidableEq, Repr

/-- Everything observable about one `acquire_permit` call: its result, its
event trace, the tenant's request list after the call, and the instant at
which the retry loop terminated. -/
structure CallResult where
  result : RLResult
  events : List Event
  requests : List Int
  finalNow : Int
deriving DecidableEq, Repr

/-- `state.requests.retain(|&t| now - t < 86400)` (line 80). -/
def prune (now : Int) (reqs : List Int) : List Int :=
  reqs.filter (fun t => now - t < 86400)

/-- `requests_in_last_minute` (lines 86-87): the count of timestamps `t`
with `t > now - 60`. -/
def minuteCount (now : Int) (reqs : List Int) : Nat :=
  (reqs.filter (fun t => now - 60 < t)).length

/-- Outcome of the retry loop (lines 82-107): `pass` with the instant of the
final iteration, `daily` for the early `return Err(...)`, `out` for fuel
exhaustion (shown unreachable below).  Each carries the trace of `check` and
`sleeping` events the loop produced. -/
inductive LoopOut where
  | pass : Int → List Event → LoopOut
  | daily : List Event → LoopOut
  | out : LoopOut
deriving DecidableEq, Repr

/-- Prefixes the iteration's `check` record and the sleep of duration `w`
onto the trace produced by the rest of the loop. -/
def admitStepCont (ev : Event) (w : Int) : LoopOut → LoopOut
  | .pass f tr => .pass f (ev :: .sleeping w :: tr)
  | .daily tr => .daily (ev :: .sleeping w :: tr)
  | .out => .out

/-- The retry loop of `acquire_permit` (lines 82-107), fuel-indexed.  The
request list is not modified inside the loop; only `now` advances, by the
sleep duration `max(oldest_in_minute + 61 - now, 1)` (line 98). -/
def admitLoop (reqs : List Int) : Int → Nat → LoopOut
  | _, 0 => .out
  | now, fuel + 1 =>
    let minuteAgo := now - 60
    let minuteCnt := (reqs.filter (fun t => minuteAgo < t)).length
    let dailyCnt := reqs.length
    let ev := Event.check now dailyCnt minuteCnt
    if DAILY_LIMIT - RATE_LIMIT_BUFFER ≤ dailyCnt then
      .daily [ev]
    else if MINUTE_LIMIT - RATE_LIMIT_BUFFER ≤ minuteCnt then
      match reqs.find? (fun t => minuteAgo < t) with
      | some oldest =>
        admitStepCont ev (max (oldest + 61 - now) 1)
          (admitLoop reqs (now + max (oldest + 61 - now) 1) fuel)
      | none => .pass now [ev]
    else
      .pass now [ev]

/-- One `acquire_permit` call for a single tenant (lines 67-120), given the
tenant's stored request list, the clock value `now0` read at entry, and
whether the `save_state` write succeeds.  Mirrors the source: semaphore
acquisition, tenant lock, one `retain` prune with `now0`, the retry loop,
then `push_back(now)` — where `now` is the *outer* binding of line 78, i.e.
`now0`, because the loop-local `now` of line 83 is out of scope — lock drop,
`save_state`, and on either error path the drops of `state` and `permit`
that release the tenant lock and the semaphore slot. -/
def acquirePermit (reqs : List Int) (now0 : Int) (saveOk : Bool) : CallResult :=
  let reqs1 := prune now0 reqs
  match admitLoop reqs1 now0 (reqs1.length + 1) with
  | .daily tr =>
    { result := .dailyErr
      events := [.semAcq, .lockAcq] ++ tr ++ [.lockRel, .semRel]
      requests := reqs1
      finalNow := now0 }
  | .pass f tr =>
    let reqs2 := reqs1 ++ [now0]
    if saveOk then
      { result := .ok
        events := [.semAcq, .lockAcq] ++ tr ++ [.append now0, .lockRel, .saveAttempt]
        requests := reqs2
        finalNow := f }
    else
      { result := .ioErr
        events := [.semAcq, .lockAcq] ++ tr ++
          [.append now0, .lockRel, .saveAttempt, .semRel]
        requests := reqs2
        finalNow := f }
  | .out =>
    { result := .dailyErr, events := [], requests := reqs1, finalNow := now0 }

/-- The sleep durations of a trace, in order. -/
def sleepsOf (es : List Event) : List Int :=
  es.filterMap (fun e => match e with | .sleeping w => some w | _ => none)

/-- The `check` records of a trace, in order: (now, daily count, minute count). -/
def checksOf (es : List Event) : List (Int × Nat × Nat) :=
  es.filterMap (fun e => match e with | .check n d m => some (n, d, m) | _ => none)

/-- Whether the trace contains a `save_state` attempt. -/
def attemptsSave (es : List Event) : Bool :=
  es.any (fun e => match e with | .saveAttempt => true | _ => false)

/-- `true` iff every `sleeping` event of the trace occurs while the
per-tenant lock is held, scanning with lock depth `d`. -/
def sleepsLockedFrom : Nat → List Event → Bool
  | _, [] => true
  | d, Event.lockAcq :: es => sleepsLockedFrom (d + 1) es
  | d, Event.lockRel :: es => sleepsLockedFrom (d - 1) es
  | d, Event.sleeping _ :: es => decide (0 < d) && sleepsLockedFrom d es
  | d, _ :: es => sleepsLockedFrom d es

/-- `true` iff every `sleeping` event of the trace occurs while no
per-tenant lock is held (the property the spec asserts of the
minute-window wait), scanning with lock depth `d`. -/
def sleepsUnlockedFrom : Nat → List Event → Bool
  | _, [] => true
  | d, Event.lockAcq :: es => sleepsUnlockedFrom (d + 1) es
  | d, Event.lockRel :: es => sleepsUnlockedFrom (d - 1) es
  | d, Event.sleeping _ :: es => decide (d = 0) && sleepsUnlockedFrom d es
  | d, _ :: es => sleepsUnlockedFrom d es

/-- The in-memory tenant map (`tenant_states`): tenant UUIDs in string form
mapped to request-timestamp lists. -/
abbrev TenantMap := List (String × List Int)

/-- Lookup with the `entry(tenant_id).or_default()` default: a missing
tenant reads as the empty history. -/
def lookupTenant : TenantMap → String → List Int
  | [], _ => []
  | p :: ps, tid => if p.1 == tid then p.2 else lookupTenant ps tid

/-- Replace the binding of `tid` (or insert it) in the tenant map. -/
def setTenant : TenantMap → String → List Int → TenantMap
  | [], tid, v => [(tid, v)]
  | p :: ps, tid, v =>
    if p.1 == tid then (tid, v) :: ps else p :: setTenant ps tid v

/-- JSON values, as far as the snapshot format needs them. -/
inductive Json where
  | num : Int → Json
  | str : String → Json
  | arr : List Json → Json
  | obj : List (String × Json) → Json

/-- Serialization of one `TenantRateLimitState` as serde derives it:
`{"requests": [t1, t2, ...]}`. -/
def encodeTenant (ts : List Int) : Json :=
  .obj [("requests", .arr (ts.map .num))]

/-- Serialization of the whole snapshot: a JSON object keyed by the string
form of each tenant UUID, as `serde_json::to_string` produces in
`save_state` (lines 128-133). -/
def encodeSnapshot (s : TenantMap) : Json :=
  .obj (s.map (fun p => (p.1, encodeTenant p.2)))

/-- Deserialization of one timestamp. -/
def decodeNum : Json → Option Int
  | .num n => some n
  | _ => none

/-- Deserialization of a timestamp list. -/
def decodeNums : List Json → Option (List Int)
  | [] => some []
  | j :: js =>
    match decodeNum j, decodeNums js with
    | some n, some ns => some (n :: ns)
    | _, _ => none

/-- Deserialization of one `TenantRateLimitState`. -/
def decodeTenant : Json → Option (List Int)
  | .obj [("requests", .arr l)] => decodeNums l
  | _ => none

/-- Deserialization of the snapshot's field list. -/
def decodeFields : List (String × Json) → Option TenantMap
  | [] => some []
  | (k, v) :: fs =>
    match decodeTenant v, decodeFields fs with
    | some ts, some rest => some ((k, ts) :: rest)
    | _, _ => none

/-- Deserialization of the whole snapshot (`serde_json::from_str` in
`RateLimiter::new`, line 48). -/
def decodeSnapshot : Json → Option TenantMap
  | .obj fields => decodeFields fields
  | _ => none

/-- `serde_json::from_str(&data).unwrap_or_default()`: a snapshot that fails
to parse yields the empty map, not an error. -/
def loadSnapshot (j : Json) : TenantMap :=
  (decodeSnapshot j).getD []

/-- The limiter's per-tenant state plus the construction-time cache path
(`RateLimiter` has no other construction parameter; the semaphore and the
two locks are modelled separately). -/
structure Limiter where
  tenants : TenantMap
  cachePath : String

/-- `RateLimiter::new` (lines 42-64): always takes a cache path; if the file
exists its content is parsed (corrupt content giving the empty map),
otherwise the map starts empty.  `file` is the cache file's content, `none`
when the file does not exist. -/
def newLimiter (cachePath : String) (file : Option Json) : Limiter :=
  { tenants :=
      match file with
      | some j => loadSnapshot j
      | none => []
    cachePath := cachePath }

/-- The JSON document `save_state` (lines 123-137) writes: the whole tenant
map, serialized.  It reads every tenant's state and modifies none. -/
def saveState (L : Limiter) : Json :=
  encodeSnapshot L.tenants

/-- `acquire_permit` at the level of the whole limiter: runs the single-
tenant call on `tid`'s history and writes back only `tid`'s entry (the
`entry(tenant_id).or_default()` handle of line 75). -/
def acquirePermitL (L : Limiter) (tid : String) (now0 : Int) (saveOk : Bool) :
    CallResult × Limiter :=
  let r := acquirePermit (lookupTenant L.tenants tid) now0 saveOk
  (r, { L with tenants := setTenant L.tenants tid r.requests })

/-- State of the concurrency semaphore (`Semaphore::new(CONCURRENT_LIMIT)`,
line 58): available permits and outstanding (acquired, unreleased) permits. -/
structure GateState where
  avail : Nat
  outstanding : Nat
deriving DecidableEq, Repr

/-- The semaphore as constructed: 5 available, none outstanding. -/
def GateInit : GateState := ⟨CONCURRENT_LIMIT, 0⟩

/-- Transitions of the concurrency semaphore: `acquire().await` completes
only when a permit is available (`avail = a + 1`); dropping a
`SemaphorePermit` returns one (possible only when a permit is
outstanding). -/
inductive GateStep : GateState → GateState → Prop where
  | acquire (a o : Nat) : GateStep ⟨a + 1, o⟩ ⟨a, o + 1⟩
  | release (a o : Nat) : GateStep ⟨a, o + 1⟩ ⟨a + 1, o⟩

/-- States reachable from the freshly constructed semaphore. -/
def GateReachable (s : GateState) : Prop :=
  Relation.ReflTransGen GateStep GateInit s

/-- An `acquire().await` can complete in `s` (otherwise its caller stays
suspended). -/
def acquireEnabled (s : GateState) : Prop := 0 < s.avail

/-- Tenant history after `n` back-to-back granted calls all entering at
instant 1000 (the "within a fraction of a second" burst of the spec's
testable property). -/
def afterN : Nat → List Int
  | 0 => []
  | n + 1 => (acquirePermit (afterN n) 1000 true).requests

/-- `true` iff each of the first `n` burst calls is granted with no sleep. -/
def burstOk (n : Nat) : Bool :=
  (List.range n).all (fun k =>
    ((acquirePermit (afterN k) 1000 true).result == .ok) &&
      (sleepsOf (acquirePermit (afterN k) 1000 true).events == []))

/-- `true` iff the event is a retry-loop event (`check` or `sleeping`). -/
def isLoopEvent : Event → Bool
  | .check _ _ _ => true
  | .sleeping _ => true
  | _ => false

/-- The property the spec asserts of every loop iteration: the daily count
used by each `check` equals the number of stored timestamps still within
24 hours of that check's own instant (i.e. as if the sequence were re-pruned
at every iteration). -/
def repruneEveryCheck (reqs : List Int) (now0 : Int) : Bool :=
  (checksOf (acquirePermit reqs now0 true).events).all
    (fun c => c.2.1 == ((prune now0 reqs).filter (fun t => c.1 - t < 86400)).length)

/-- `true` iff `oldest` is a lower bound of every stored timestamp inside
the trailing minute window at `now0` (i.e. the oldest in-window timestamp,
given that it is itself in the window). -/
def isMinOfWindow (reqs : List Int) (now0 oldest : Int) : Bool :=
  reqs.all (fun t => !(decide (now0 - 60 < t)) || decide (oldest ≤ t))

/-! ### General list lemmas -/

theorem length_filter_le_of_imp {p q : Int → Bool} :
    ∀ l : List Int, (∀ x ∈ l, q x = true → p x = true) →
      (l.filter q).length ≤ (l.filter p).length := by
  intro l
  induction l with
  | nil => intro _; simp
  | cons a l ih =>
    intro h
    have hl : ∀ x ∈ l, q x = true → p x = true := fun x hx => h x (List.mem_cons_of_mem a hx)
    by_cases hq : q a = true
    · have hp : p a = true := h a (List.mem_cons_self a l) hq
      simp only [List.filter_cons, hq, hp, if_true, List.length_cons]
      exact Nat.succ_le_succ (ih hl)
    · simp only [List.filter_cons, hq, if_false]
      by_cases hp : p a = true
      · simp only [hp, if_true, List.length_cons]
        exact Nat.le_succ_of_le (ih hl)
      · simp only [hp, if_false]
        exact ih hl

theorem length_filter_lt_of_witness {p q : Int → Bool} {x : Int} :
    ∀ l : List Int, x ∈ l → p x = true → q x = false →
      (∀ y ∈ l, q y = true → p y = true) →
      (l.filter q).length < (l.filter p).length := by
  intro l
  induction l with
  | nil => intro hx; cases hx
  | cons a l ih =>
    intro hx hpx hqx h
    have hl : ∀ y ∈ l, q y = true → p y = true := fun y hy => h y (List.mem_cons_of_mem a hy)
    rcases List.mem_cons.mp hx with rfl | hx'
    · have hqa : q x = false := hqx
      simp only [List.filter_cons, hqa, Bool.false_eq_true, if_false, hpx, if_true,
        List.length_cons]
      exact Nat.lt_succ_of_le (length_filter_le_of_imp l hl)
    · by_cases hq : q a = true
      · have hp : p a = true := h a (List.mem_cons_self a l) hq
        simp only [List.filter_cons, hq, hp, if_true, List.length_cons]
        exact Nat.succ_lt_succ (ih hx' hpx hqx hl)
      · simp only [List.filter_cons, hq, if_false]
        by_cases hp : p a = true
        · simp only [hp, if_true, List.length_cons]
          exact Nat.lt_succ_of_lt (ih hx' hpx hqx hl)
        · simp only [hp, if_false]
          exact ih hx' hpx hqx hl

theorem find?_is_min {p : Int → Bool} {a : Int} :
    ∀ l : List Int, l.Pairwise (· ≤ ·) → l.find? p = some a →
      ∀ t ∈ l, p t = true → a ≤ t := by
  intro l
  induction l with
  | nil => intro _ hf; cases hf
  | cons b l ih =>
    intro hs hf t ht hpt
    rcases List.pairwise_cons.mp hs with ⟨hb, hs'⟩
    by_cases hpb : p b = true
    · rw [List.find?_cons_of_pos l hpb] at hf
      cases hf
      rcases List.mem_cons.mp ht with rfl | ht'
      · exact le_refl t
      · exact hb t ht'
    · rw [List.find?_cons_of_neg l hpb] at hf
      rcases List.mem_cons.mp ht with rfl | ht'
      · exact absurd hpt hpb
      · exact ih hs' hf t ht' hpt

/-! ### Retry-loop lemmas -/

theorem daily_threshold : DAILY_LIMIT - RATE_LIMIT_BUFFER = 4998 := rfl

theorem minute_threshold : MINUTE_LIMIT - RATE_LIMIT_BUFFER = 58 := rfl

theorem admitLoop_succ (reqs : List Int) (now : Int) (fuel : Nat) :
    admitLoop reqs now (fuel + 1) =
      if DAILY_LIMIT - RATE_LIMIT_BUFFER ≤ reqs.length then
        .daily [Event.check now reqs.length (minuteCount now reqs)]
      else if MINUTE_LIMIT - RATE_LIMIT_BUFFER ≤ minuteCount now reqs then
        match reqs.find? (fun t => decide (now - 60 < t)) with
        | some oldest =>
          admitStepCont (Event.check now reqs.length (minuteCount now reqs))
            (max (oldest + 61 - now) 1)
            (admitLoop reqs (now + max (oldest + 61 - now) 1) fuel)
        | none => .pass now [Event.check now reqs.length (minuteCount now reqs)]
      else .pass now [Event.check now reqs.length (minuteCount now reqs)] := rfl

theorem minuteCount_decrease {reqs : List Int} {now oldest : Int}
    (hf : reqs.find? (fun t => decide (now - 60 < t)) = some oldest) :
    minuteCount (now + max (oldest + 61 - now) 1) reqs < minuteCount now reqs := by
  have hw1 : (1 : Int) ≤ max (oldest + 61 - now) 1 := le_max_right _ _
  have hw2 : oldest + 61 - now ≤ max (oldest + 61 - now) 1 := le_max_left _ _
  have hmem : oldest ∈ reqs := List.mem_of_find?_eq_some hf
  have hp := List.find?_some hf
  simp only [minuteCount]
  refine length_filter_lt_of_witness reqs hmem hp ?_ ?_
  · simp only [decide_eq_false_iff_not, not_lt]
    omega
  · intro y _ hy
    simp only [decide_eq_true_eq] at hy ⊢
    omega

theorem admitLoop_step_daily {reqs : List Int} {now : Int} (fuel : Nat)
    (hd : DAILY_LIMIT - RATE_LIMIT_BUFFER ≤ reqs.length) :
    admitLoop reqs now (fuel + 1) =
      .daily [Event.check now reqs.length (minuteCount now reqs)] := by
  rw [admitLoop_succ, if_pos hd]

theorem admitLoop_step_pass {reqs : List Int} {now : Int} (fuel : Nat)
    (hd : ¬ DAILY_LIMIT - RATE_LIMIT_BUFFER ≤ reqs.length)
    (hm : ¬ MINUTE_LIMIT - RATE_LIMIT_BUFFER ≤ minuteCount now reqs) :
    admitLoop reqs now (fuel + 1) =
      .pass now [Event.check now reqs.length (minuteCount now reqs)] := by
  rw [admitLoop_succ, if_neg hd, if_neg hm]

theorem admitLoop_step_none {reqs : List Int} {now : Int} (fuel : Nat)
    (hd : ¬ DAILY_LIMIT - RATE_LIMIT_BUFFER ≤ reqs.length)
    (hm : MINUTE_LIMIT - RATE_LIMIT_BUFFER ≤ minuteCount now reqs)
    (hf : reqs.find? (fun t => decide (now - 60 < t)) = none) :
    admitLoop reqs now (fuel + 1) =
      .pass now [Event.check now reqs.length (minuteCount now reqs)] := by
  rw [admitLoop_succ, if_neg hd, if_pos hm, hf]

theorem admitLoop_step_sleep {reqs : List Int} {now oldest : Int} (fuel : Nat)
    (hd : ¬ DAILY_LIMIT - RATE_LIMIT_BUFFER ≤ reqs.length)
    (hm : MINUTE_LIMIT - RATE_LIMIT_BUFFER ≤ minuteCount now reqs)
    (hf : reqs.find? (fun t => decide (now - 60 < t)) = some oldest) :
    admitLoop reqs now (fuel + 1) =
      admitStepCont (Event.check now reqs.length (minuteCount now reqs))
        (max (oldest + 61 - now) 1)
        (admitLoop reqs (now + max (oldest + 61 - now) 1) fuel) := by
  rw [admitLoop_succ, if_neg hd, if_pos hm, hf]

theorem admitLoop_step_sleep_pass {reqs : List Int} {now oldest f : Int}
    {tr : List Event} (fuel : Nat)
    (hd : ¬ DAILY_LIMIT - RATE_LIMIT_BUFFER ≤ reqs.length)
    (hm : MINUTE_LIMIT - RATE_LIMIT_BUFFER ≤ minuteCount now reqs)
    (hf : reqs.find? (fun t => decide (now - 60 < t)) = some oldest)
    (hrec : admitLoop reqs (now + max (oldest + 61 - now) 1) fuel = .pass f tr) :
    admitLoop reqs now (fuel + 1) =
      .pass f (Event.check now reqs.length (minuteCount now reqs) ::
        .sleeping (max (oldest + 61 - now) 1) :: tr) := by
  rw [admitLoop_step_sleep fuel hd hm hf, hrec]
  rfl

theorem admitLoop_step_sleep_daily {reqs : List Int} {now oldest : Int}
    {tr : List Event} (fuel : Nat)
    (hd : ¬ DAILY_LIMIT - RATE_LIMIT_BUFFER ≤ reqs.length)
    (hm : MINUTE_LIMIT - RATE_LIMIT_BUFFER ≤ minuteCount now reqs)
    (hf : reqs.find? (fun t => decide (now - 60 < t)) = some oldest)
    (hrec : admitLoop reqs (now + max (oldest + 61 - now) 1) fuel = .daily tr) :
    admitLoop reqs now (fuel + 1) =
      .daily (Event.check now reqs.length (minuteCount now reqs) ::
        .sleeping (max (oldest + 61 - now) 1) :: tr) := by
  rw [admitLoop_step_sleep fuel hd hm hf, hrec]
  rfl

theorem admitLoop_step_sleep_out {reqs : List Int} {now oldest : Int} (fuel : Nat)
    (hd : ¬ DAILY_LIMIT - RATE_LIMIT_BUFFER ≤ reqs.length)
    (hm : MINUTE_LIMIT - RATE_LIMIT_BUFFER ≤ minuteCount now reqs)
    (hf : reqs.find? (fun t => decide (now - 60 < t)) = some oldest)
    (hrec : admitLoop reqs (now + max (oldest + 61 - now) 1) fuel = .out) :
    admitLoop reqs now (fuel + 1) = .out := by
  rw [admitLoop_step_sleep fuel hd hm hf, hrec]
  rfl

theorem admitLoop_ne_out :
    ∀ (fuel : Nat) (reqs : List Int) (now : Int),
      minuteCount now reqs < fuel → admitLoop reqs now fuel ≠ .out := by
  intro fuel
  induction fuel with
  | zero => intro reqs now h; exact absurd h (Nat.not_lt_zero _)
  | succ fuel ih =>
    intro reqs now h
    by_cases hd : DAILY_LIMIT - RATE_LIMIT_BUFFER ≤ reqs.length
    · rw [admitLoop_step_daily fuel hd]; intro hc; cases hc
    · by_cases hm : MINUTE_LIMIT - RATE_LIMIT_BUFFER ≤ minuteCount now reqs
      · cases hf : reqs.find? (fun t => decide (now - 60 < t)) with
        | none => rw [admitLoop_step_none fuel hd hm hf]; intro hc; cases hc
        | some oldest =>
          have hdec := minuteCount_decrease hf
          have h2 : minuteCount (now + max (oldest + 61 - now) 1) reqs < fuel :=
            Nat.lt_of_lt_of_le hdec (Nat.lt_succ_iff.mp h)
          have hne := ih reqs (now + max (oldest + 61 - now) 1) h2
          cases hrec : admitLoop reqs (now + max (oldest + 61 - now) 1) fuel with
          | pass f tr =>
            rw [admitLoop_step_sleep_pass fuel hd hm hf hrec]
            intro hc; cases hc
          | daily tr =>
            rw [admitLoop_step_sleep_daily fuel hd hm hf hrec]
            intro hc; cases hc
          | out => exact absurd hrec hne
      · rw [admitLoop_step_pass fuel hd hm]; intro hc; cases hc

theorem admitLoop_pass_trace :
    ∀ (fuel : Nat) (reqs : List Int) (now f : Int) (tr : List Event),
      admitLoop reqs now fuel = .pass f tr →
      (∀ e ∈ tr, isLoopEvent e = true) ∧ ∀ c ∈ checksOf tr, c.2.1 = reqs.length := by
  intro fuel
  induction fuel with
  | zero => intro reqs now f tr h; cases h
  | succ fuel ih =>
    intro reqs now f tr h
    by_cases hd : DAILY_LIMIT - RATE_LIMIT_BUFFER ≤ reqs.length
    · rw [admitLoop_step_daily fuel hd] at h; cases h
    · by_cases hm : MINUTE_LIMIT - RATE_LIMIT_BUFFER ≤ minuteCount now reqs
      · cases hf : reqs.find? (fun t => decide (now - 60 < t)) with
        | none =>
          rw [admitLoop_step_none fuel hd hm hf] at h
          injection h with h1 h2
          subst h2
          constructor
          · intro e he
            rcases List.mem_singleton.mp he with rfl
            rfl
          · intro c hc
            simp only [checksOf, List.filterMap_cons, List.filterMap_nil] at hc
            rcases List.mem_singleton.mp hc with rfl
            rfl
        | some oldest =>
          cases hrec : admitLoop reqs (now + max (oldest + 61 - now) 1) fuel with
          | pass f' tr' =>
            rw [admitLoop_step_sleep_pass fuel hd hm hf hrec] at h
            injection h with h1 h2
            subst h2
            rcases ih reqs (now + max (oldest + 61 - now) 1) f' tr' hrec with ⟨he', hc'⟩
            constructor
            · intro e he
              rcases List.mem_cons.mp he with rfl | he2
              · rfl
              · rcases List.mem_cons.mp he2 with rfl | he3
                · rfl
                · exact he' e he3
            · intro c hc
              simp only [checksOf, List.filterMap_cons] at hc
              rcases List.mem_cons.mp hc with rfl | hc2
              · rfl
              · exact hc' c hc2
          | daily tr' =>
            rw [admitLoop_step_sleep_daily fuel hd hm hf hrec] at h; cases h
          | out =>
            rw [admitLoop_step_sleep_out fuel hd hm hf hrec] at h; cases h
      · rw [admitLoop_step_pass fuel hd hm] at h
        injection h with h1 h2
        subst h2
        constructor
        · intro e he
          rcases List.mem_singleton.mp he with rfl
          rfl
        · intro c hc
          simp only [checksOf, List.filterMap_cons, List.filterMap_nil] at hc
          rcases List.mem_singleton.mp hc with rfl
          rfl

theorem admitLoop_daily_trace :
    ∀ (fuel : Nat) (reqs : List Int) (now : Int) (tr : List Event),
      admitLoop reqs now fuel = .daily tr →
      (∀ e ∈ tr, isLoopEvent e = true) ∧ ∀ c ∈ checksOf tr, c.2.1 = reqs.length := by
  intro fuel
  induction fuel with
  | zero => intro reqs now tr h; cases h
  | succ fuel ih =>
    intro reqs now tr h
    by_cases hd : DAILY_LIMIT - RATE_LIMIT_BUFFER ≤ reqs.length
    · rw [admitLoop_step_daily fuel hd] at h
      injection h with h2
      subst h2
      constructor
      · intro e he
        rcases List.mem_singleton.mp he with rfl
        rfl
      · intro c hc
        simp only [checksOf, List.filterMap_cons, List.filterMap_nil] at hc
        rcases List.mem_singleton.mp hc with rfl
        rfl
    · by_cases hm : MINUTE_LIMIT - RATE_LIMIT_BUFFER ≤ minuteCount now reqs
      · cases hf : reqs.find? (fun t => decide (now - 60 < t)) with
        | none =>
          rw [admitLoop_step_none fuel hd hm hf] at h; cases h
        | some oldest =>
          cases hrec : admitLoop reqs (now + max (oldest + 61 - now) 1) fuel with
          | pass f' tr' =>
            rw [admitLoop_step_sleep_pass fuel hd hm hf hrec] at h; cases h
          | daily tr' =>
            rw [admitLoop_step_sleep_daily fuel hd hm hf hrec] at h
            injection h with h2
            subst h2
            rcases ih reqs (now + max (oldest + 61 - now) 1) tr' hrec with ⟨he', hc'⟩
            constructor
            · intro e he
              rcases List.mem_cons.mp he with rfl | he2
              · rfl
              · rcases List.mem_cons.mp he2 with rfl | he3
                · rfl
                · exact he' e he3
            · intro c hc
              simp only [checksOf, List.filterMap_cons] at hc
              rcases List.mem_cons.mp hc with rfl | hc2
              · rfl
              · exact hc' c hc2
          | out =>
            rw [admitLoop_step_sleep_out fuel hd hm hf hrec] at h; cases h
      · rw [admitLoop_step_pass fuel hd hm] at h; cases h

/-! ### Concurrency-gate lemmas and claim C1 -/

theorem gate_inv (s : GateState) (h : GateReachable s) :
    s.avail + s.outstanding = CONCURRENT_LIMIT := by
  induction h with
  | refl => rfl
  | tail _ hstep ih =>
    cases hstep with
    | acquire a o =>
      have ih' : a + 1 + o = CONCURRENT_LIMIT := ih
      show a + (o + 1) = CONCURRENT_LIMIT
      omega
    | release a o =>
      have ih' : a + (o + 1) = CONCURRENT_LIMIT := ih
      show a + 1 + o = CONCURRENT_LIMIT
      omega

/-- Claim C1: at any instant the number of outstanding (acquired, not yet
released) permits never exceeds `CONCURRENT_LIMIT` (5); a caller requesting
a permit while 5 are outstanding cannot complete its acquisition (it stays
suspended), and an acquisition that becomes possible again does so only
through a release step. -/
theorem gate_outstanding_le_limit (s s' : GateState)
    (hr : GateReachable s) (hstep : GateStep s s') :
    s.outstanding ≤ CONCURRENT_LIMIT ∧
    (s.outstanding = CONCURRENT_LIMIT → ¬ acquireEnabled s) ∧
    (¬ acquireEnabled s → acquireEnabled s' → s'.outstanding + 1 = s.outstanding) := by
  have hi := gate_inv s hr
  refine ⟨by omega, ?_, ?_⟩
  · intro h5
    simp only [acquireEnabled]
    omega
  · intro hna _
    cases hstep with
    | acquire a o => exact absurd (Nat.succ_pos a) hna
    | release a o => rfl

theorem gate_outstanding_le_limit_witness :
    (GateState.mk 0 5).outstanding ≤ CONCURRENT_LIMIT ∧
    ((GateState.mk 0 5).outstanding = CONCURRENT_LIMIT →
      ¬ acquireEnabled (GateState.mk 0 5)) ∧
    (¬ acquireEnabled (GateState.mk 0 5) → acquireEnabled (GateState.mk 1 4) →
      (GateState.mk 1 4).outstanding + 1 = (GateState.mk 0 5).outstanding) := by
  have h1 : GateReachable ⟨4, 1⟩ :=
    Relation.ReflTransGen.single (GateStep.acquire 4 0)
  have h2 : GateReachable ⟨3, 2⟩ := h1.tail (GateStep.acquire 3 1)
  have h3 : GateReachable ⟨2, 3⟩ := h2.tail (GateStep.acquire 2 2)
  have h4 : GateReachable ⟨1, 4⟩ := h3.tail (GateStep.acquire 1 3)
  have h5 : GateReachable ⟨0, 5⟩ := h4.tail (GateStep.acquire 0 4)
  exact gate_outstanding_le_limit ⟨0, 5⟩ ⟨1, 4⟩ h5 (GateStep.release 0 4)

/-! ### Claim C3: daily quota fails fast, slot released -/

/-- Claim C3: if, after pruning, the tenant's 24-hour count is at least
`DAILY_LIMIT - RATE_LIMIT_BUFFER` (4998), `acquire_permit` fails at once
with the daily-quota error, performs no sleep, and its trace ends by
releasing the tenant lock and then the semaphore slot before the error
reaches the caller. -/
theorem daily_quota_fails_fast (reqs : List Int) (now0 : Int) (saveOk : Bool)
    (h : DAILY_LIMIT - RATE_LIMIT_BUFFER ≤ (prune now0 reqs).length) :
    (acquirePermit reqs now0 saveOk).result = .dailyErr ∧
    sleepsOf (acquirePermit reqs now0 saveOk).events = [] ∧
    (acquirePermit reqs now0 saveOk).events =
      [.semAcq, .lockAcq,
        .check now0 (prune now0 reqs).length (minuteCount now0 (prune now0 reqs)),
        .lockRel, .semRel] := by
  have hstep := @admitLoop_step_daily (prune now0 reqs) now0
    ((prune now0 reqs).length) h
  have e1 : acquirePermit reqs now0 saveOk =
      { result := .dailyErr
        events := [.semAcq, .lockAcq] ++
          [Event.check now0 (prune now0 reqs).length
            (minuteCount now0 (prune now0 reqs))] ++ [.lockRel, .semRel]
        requests := prune now0 reqs
        finalNow := now0 } := by
    simp only [acquirePermit]
    rw [hstep]
  rw [e1]
  exact ⟨rfl, rfl, rfl⟩

theorem daily_quota_fails_fast_witness :
    DAILY_LIMIT - RATE_LIMIT_BUFFER ≤ (prune 0 (List.replicate 4998 0)).length ∧
    (acquirePermit (List.replicate 4998 0) 0 true).result = .dailyErr := by
  have h : DAILY_LIMIT - RATE_LIMIT_BUFFER ≤ (prune 0 (List.replicate 4998 0)).length := by
    have hp : prune 0 (List.replicate 4998 0) = List.replicate 4998 (0 : Int) := by
      unfold prune
      rw [List.filter_replicate]
      norm_num
    rw [daily_threshold, hp, List.length_replicate]
  exact ⟨h, (daily_quota_fails_fast (List.replicate 4998 0) 0 true h).1⟩

/-! ### Claim C7: the appended timestamp is the pre-loop clock value -/

/-- Claim C7 (showing the code contradicts it): with 58 timestamps at
second 1000 and a call entering at 1000, the call sleeps 61 seconds, both
checks pass at instant 1061 (`finalNow`), yet the appended timestamp is
1000 — the outer `now` of line 78 — not the `now` of the final loop
iteration, because `push_back(now)` refers to the shadowed outer binding. -/
theorem append_uses_preloop_now :
    (acquirePermit (List.replicate 58 1000) 1000 true).result = .ok ∧
    sleepsOf (acquirePermit (List.replicate 58 1000) 1000 true).events = [61] ∧
    (acquirePermit (List.replicate 58 1000) 1000 true).finalNow = 1061 ∧
    (acquirePermit (List.replicate 58 1000) 1000 true).requests.getLast? = some 1000 ∧
    (1000 : Int) ≠ 1061 := by decide

/-! ### Counterexamples for claims C2, C5, C6, C9 -/

/-- Claim C2 is false on the code: a call that sleeps in the minute-window
retry loop does so while holding the per-tenant lock (the sleep occurs at
lock depth 1, not 0). -/
theorem sleep_without_lock_refuted :
    sleepsOf (acquirePermit (List.replicate 58 2000) 2000 true).events ≠ [] ∧
    sleepsUnlockedFrom 0 (acquirePermit (List.replicate 58 2000) 2000 true).events =
      false := by decide

/-- Claim C5 is false on the code: pruning happens once, before the loop.
In this run the loop's second check (at instant 100061) still counts the
timestamp 13601, which is then 86460 seconds old — older than 24 hours —
in its daily count (59, where re-pruning would give 58). -/
theorem reprune_every_iteration_refuted :
    repruneEveryCheck (13601 :: List.replicate 58 100000) 100000 = false ∧
    checksOf (acquirePermit (13601 :: List.replicate 58 100000) 100000 true).events =
      [(100000, 59, 58), (100061, 59, 0)] ∧
    (86400 : Int) ≤ 100061 - 13601 := by decide

/-- Claim C6 is false in its last part: when `save_state` fails, the
in-memory grant survives (the timestamp stays appended) but the caller does
not keep the concurrency slot — the `?` return drops the permit, so the
trace ends with a semaphore release and the caller receives only the
error. -/
theorem save_failure_slot_kept_refuted :
    (acquirePermit [] 500 false).result = .ioErr ∧
    (acquirePermit [] 500 false).requests = [500] ∧
    Event.semRel ∈ (acquirePermit [] 500 false).events := by decide

/-- Claim C9 is false on the code: there is no ephemeral mode.  Even a
limiter constructed with no existing cache file performs a durable write on
a granted admission. -/
theorem ephemeral_mode_refuted :
    (acquirePermitL (newLimiter "cache.json" none) "tenant-a" 1000 true).1.result =
      .ok ∧
    attemptsSave
      (acquirePermitL (newLimiter "cache.json" none) "tenant-a" 1000 true).1.events =
      true := by decide

/-! ### Claim C2 (amended): the tenant lock is held across every sleep -/

theorem sleepsLockedFrom_append_loop :
    ∀ tr : List Event, (∀ e ∈ tr, isLoopEvent e = true) →
      ∀ (d : Nat) (rest : List Event),
        sleepsLockedFrom (d + 1) (tr ++ rest) = sleepsLockedFrom (d + 1) rest := by
  intro tr
  induction tr with
  | nil => intro _ d rest; rfl
  | cons e tr ih =>
    intro h d rest
    have he := h e (List.mem_cons_self e tr)
    have htr : ∀ x ∈ tr, isLoopEvent x = true := fun x hx => h x (List.mem_cons_of_mem e hx)
    cases e with
    | check n a b => exact ih htr d rest
    | sleeping w =>
      show (decide (0 < d + 1) && sleepsLockedFrom (d + 1) (tr ++ rest)) = _
      rw [ih htr d rest]
      simp
    | semAcq => simp [isLoopEvent] at he
    | semRel => simp [isLoopEvent] at he
    | lockAcq => simp [isLoopEvent] at he
    | lockRel => simp [isLoopEvent] at he
    | append t => simp [isLoopEvent] at he
    | saveAttempt => simp [isLoopEvent] at he

/-- Claim C2 (amended): whenever a caller of `acquire_permit` is suspended
in the minute-window sleep, it still holds the per-tenant lock — the
`MutexGuard` acquired before the retry loop lives across the `sleep().await`
and is dropped only after the loop (and the append, when granted).  Every
sleep of every call's trace occurs at tenant-lock depth ≥ 1. -/
theorem minute_wait_holds_tenant_lock (reqs : List Int) (now0 : Int) (saveOk : Bool) :
    sleepsLockedFrom 0 (acquirePermit reqs now0 saveOk).events = true := by
  cases hm : admitLoop (prune now0 reqs) now0 ((prune now0 reqs).length + 1) with
  | daily tr =>
    have htr := (admitLoop_daily_trace _ _ _ _ hm).1
    have he : (acquirePermit reqs now0 saveOk).events =
        [Event.semAcq, Event.lockAcq] ++ tr ++ [Event.lockRel, Event.semRel] := by
      simp only [acquirePermit]
      rw [hm]
    rw [he]
    show sleepsLockedFrom (0 + 1) (tr ++ [Event.lockRel, Event.semRel]) = true
    rw [sleepsLockedFrom_append_loop tr htr 0 [Event.lockRel, Event.semRel]]
    rfl
  | pass f tr =>
    have htr := (admitLoop_pass_trace _ _ _ _ _ hm).1
    cases saveOk with
    | true =>
      have he : (acquirePermit reqs now0 true).events =
          [Event.semAcq, Event.lockAcq] ++ tr ++
            [Event.append now0, Event.lockRel, Event.saveAttempt] := by
        simp only [acquirePermit]
        rw [hm]
        rfl
      rw [he]
      show sleepsLockedFrom (0 + 1)
        (tr ++ [Event.append now0, Event.lockRel, Event.saveAttempt]) = true
      rw [sleepsLockedFrom_append_loop tr htr 0 _]
      rfl
    | false =>
      have he : (acquirePermit reqs now0 false).events =
          [Event.semAcq, Event.lockAcq] ++ tr ++
            [Event.append now0, Event.lockRel, Event.saveAttempt, Event.semRel] := by
        simp only [acquirePermit]
        rw [hm]
        rfl
      rw [he]
      show sleepsLockedFrom (0 + 1)
        (tr ++ [Event.append now0, Event.lockRel, Event.saveAttempt, Event.semRel]) =
        true
      rw [sleepsLockedFrom_append_loop tr htr 0 _]
      rfl
  | out =>
    have he : (acquirePermit reqs now0 saveOk).events = [] := by
      simp only [acquirePermit]
      rw [hm]
    rw [he]
    rfl

/-! ### Event-shape helpers -/

theorem acquirePermit_events_pass {reqs : List Int} {now0 f : Int} {tr : List Event}
    (saveOk : Bool)
    (hm : admitLoop (prune now0 reqs) now0 ((prune now0 reqs).length + 1) = .pass f tr) :
    (acquirePermit reqs now0 saveOk).events =
      [Event.semAcq, Event.lockAcq] ++ tr ++
        (Event.append now0 :: Event.lockRel :: Event.saveAttempt ::
          (if saveOk then [] else [Event.semRel])) := by
  cases saveOk
  · simp only [acquirePermit]
    rw [hm]
    rfl
  · simp only [acquirePermit]
    rw [hm]
    rfl

theorem acquirePermit_events_daily {reqs : List Int} {now0 : Int} {tr : List Event}
    (saveOk : Bool)
    (hm : admitLoop (prune now0 reqs) now0 ((prune now0 reqs).length + 1) = .daily tr) :
    (acquirePermit reqs now0 saveOk).events =
      [Event.semAcq, Event.lockAcq] ++ tr ++ [Event.lockRel, Event.semRel] := by
  simp only [acquirePermit]
  rw [hm]

theorem checksOf_wrap (pre tr post : List Event)
    (hpre : checksOf pre = []) (hpost : checksOf post = []) :
    checksOf (pre ++ tr ++ post) = checksOf tr := by
  unfold checksOf at *
  rw [List.filterMap_append, List.filterMap_append, hpre, hpost]
  simp

/-! ### Claim C5 (amended): pruning happens once, before the loop -/

/-- Claim C5 (amended): pruning is performed exactly once per call, before
the retry loop, at the call's entry instant: every timestamp surviving that
prune is within 24 hours of the entry instant, and every loop iteration's
daily count equals the length of the once-pruned sequence.  (An entry that
ages past 24 hours during an in-loop sleep is therefore still counted by
later iterations of the same call, as the counterexample shows.) -/
theorem prune_once_per_call (reqs : List Int) (now0 : Int) (saveOk : Bool) :
    ((prune now0 reqs).all (fun t => decide (now0 - t < 86400))) = true ∧
    ((checksOf (acquirePermit reqs now0 saveOk).events).all
      (fun c => c.2.1 == (prune now0 reqs).length)) = true := by
  constructor
  · rw [List.all_eq_true]
    intro t ht
    exact (List.mem_filter.mp ht).2
  · rw [List.all_eq_true]
    have hc : ∀ c ∈ checksOf (acquirePermit reqs now0 saveOk).events,
        c.2.1 = (prune now0 reqs).length := by
      cases hm : admitLoop (prune now0 reqs) now0 ((prune now0 reqs).length + 1) with
      | daily tr =>
        rw [acquirePermit_events_daily saveOk hm,
          checksOf_wrap [Event.semAcq, Event.lockAcq] tr
            [Event.lockRel, Event.semRel] rfl rfl]
        exact (admitLoop_daily_trace _ _ _ _ hm).2
      | pass f tr =>
        rw [acquirePermit_events_pass saveOk hm]
        have hpost : checksOf (Event.append now0 :: Event.lockRel ::
            Event.saveAttempt :: (if saveOk then [] else [Event.semRel])) = [] := by
          cases saveOk
          · rfl
          · rfl
        rw [checksOf_wrap [Event.semAcq, Event.lockAcq] tr _ rfl hpost]
        exact (admitLoop_pass_trace _ _ _ _ _ hm).2
      | out =>
        have he : (acquirePermit reqs now0 saveOk).events = [] := by
          simp only [acquirePermit]
          rw [hm]
        rw [he]
        intro c hcm
        simp [checksOf] at hcm
    intro c hcm
    exact beq_iff_eq.mpr (hc c hcm)

/-! ### Claim C4: the minute-window wait duration -/

/-- Claim C4: when the daily check passes but the minute count is at least
`MINUTE_LIMIT - RATE_LIMIT_BUFFER` (58), the first wait lasts exactly
`max(oldest + 61 - now, 1)` seconds, where `oldest` — the first stored
timestamp inside the window — is the oldest in-window timestamp (the
sequence being sorted); and concretely, 58 admissions all entering at
second 1000 succeed with no sleep, while the 59th sleeps 61 seconds and
passes its checks only at instant `1000 + 61 = oldest + 61`. -/
theorem minute_window_wait :
    (∀ (reqs : List Int) (now0 : Int) (saveOk : Bool) (oldest : Int),
      reqs.Pairwise (· ≤ ·) →
      ¬ DAILY_LIMIT - RATE_LIMIT_BUFFER ≤ (prune now0 reqs).length →
      MINUTE_LIMIT - RATE_LIMIT_BUFFER ≤ minuteCount now0 (prune now0 reqs) →
      (prune now0 reqs).find? (fun t => decide (now0 - 60 < t)) = some oldest →
      (sleepsOf (acquirePermit reqs now0 saveOk).events).head? =
          some (max (oldest + 61 - now0) 1) ∧
        isMinOfWindow (prune now0 reqs) now0 oldest = true) ∧
    burstOk 58 = true ∧
    afterN 58 = List.replicate 58 1000 ∧
    (acquirePermit (afterN 58) 1000 true).result = .ok ∧
    sleepsOf (acquirePermit (afterN 58) 1000 true).events = [61] ∧
    (acquirePermit (afterN 58) 1000 true).finalNow = 1000 + 61 := by
  constructor
  · intro reqs now0 saveOk oldest hsort hd hm hf
    constructor
    · have hne : minuteCount now0 (prune now0 reqs) < (prune now0 reqs).length + 1 :=
        Nat.lt_succ_of_le (List.length_filter_le _ _)
      cases hrec : admitLoop (prune now0 reqs)
          (now0 + max (oldest + 61 - now0) 1) (prune now0 reqs).length with
      | pass f' tr' =>
        have hstep := admitLoop_step_sleep_pass (prune now0 reqs).length hd hm hf hrec
        rw [acquirePermit_events_pass saveOk hstep]
        simp [sleepsOf, List.filterMap_append, List.filterMap_cons]
      | daily tr' =>
        have hstep := admitLoop_step_sleep_daily (prune now0 reqs).length hd hm hf hrec
        rw [acquirePermit_events_daily saveOk hstep]
        simp [sleepsOf, List.filterMap_append, List.filterMap_cons]
      | out =>
        have hstep := admitLoop_step_sleep_out (prune now0 reqs).length hd hm hf hrec
        exact absurd hstep (admitLoop_ne_out _ _ _ hne)
    · have hsort1 : (prune now0 reqs).Pairwise (· ≤ ·) :=
        List.Pairwise.sublist (List.filter_sublist reqs) hsort
      rw [isMinOfWindow, List.all_eq_true]
      intro t ht
      by_cases hw : now0 - 60 < t
      · have hmin : oldest ≤ t :=
          find?_is_min (prune now0 reqs) hsort1 hf t ht (decide_eq_true hw)
        simp [hmin]
      · simp [hw]
  · refine ⟨by decide, by decide, by decide, by decide, by decide⟩

theorem minute_window_wait_witness :
    List.Pairwise (· ≤ ·) (List.replicate 58 (3000 : Int)) ∧
    ¬ DAILY_LIMIT - RATE_LIMIT_BUFFER ≤
      (prune 3000 (List.replicate 58 (3000 : Int))).length ∧
    MINUTE_LIMIT - RATE_LIMIT_BUFFER ≤
      minuteCount 3000 (prune 3000 (List.replicate 58 (3000 : Int))) ∧
    (prune 3000 (List.replicate 58 (3000 : Int))).find?
      (fun t => decide ((3000 : Int) - 60 < t)) = some 3000 ∧
    ((sleepsOf (acquirePermit (List.replicate 58 (3000 : Int)) 3000 true).events).head? =
      some (max ((3000 : Int) + 61 - 3000) 1) ∧
      isMinOfWindow (prune 3000 (List.replicate 58 (3000 : Int))) 3000 3000 = true) :=
  ⟨by decide, by decide, by decide, by decide,
    minute_window_wait.1 (List.replicate 58 (3000 : Int)) 3000 true 3000
      (by decide) (by decide) (by decide) (by decide)⟩

/-! ### Claim C6 (amended): save failure reports an error, keeps the grant,
releases the slot -/

/-- Claim C6 (amended): when saving the snapshot after a granted admission
fails, the caller receives the I/O error and the in-memory grant is not
undone — the appended timestamp remains in the tenant's sequence, exactly
as in the successful-save run — but the concurrency slot does not stay with
the caller: the error return drops the permit, releasing the slot. -/
theorem save_failure_keeps_grant (reqs : List Int) (now0 : Int)
    (h : (acquirePermit reqs now0 true).result = .ok) :
    (acquirePermit reqs now0 false).result = .ioErr ∧
    (acquirePermit reqs now0 false).requests = prune now0 reqs ++ [now0] ∧
    (acquirePermit reqs now0 false).requests = (acquirePermit reqs now0 true).requests ∧
    Event.semRel ∈ (acquirePermit reqs now0 false).events := by
  cases hm : admitLoop (prune now0 reqs) now0 ((prune now0 reqs).length + 1) with
  | daily tr =>
    have hres : (acquirePermit reqs now0 true).result = .dailyErr := by
      simp only [acquirePermit]
      rw [hm]
    rw [hres] at h
    exact absurd h (by decide)
  | out =>
    have hres : (acquirePermit reqs now0 true).result = .dailyErr := by
      simp only [acquirePermit]
      rw [hm]
    rw [hres] at h
    exact absurd h (by decide)
  | pass f tr =>
    refine ⟨?_, ?_, ?_, ?_⟩
    · simp only [acquirePermit]
      rw [hm]
      rfl
    · simp only [acquirePermit]
      rw [hm]
      rfl
    · have h1 : (acquirePermit reqs now0 false).requests = prune now0 reqs ++ [now0] := by
        simp only [acquirePermit]
        rw [hm]
        rfl
      have h2 : (acquirePermit reqs now0 true).requests = prune now0 reqs ++ [now0] := by
        simp only [acquirePermit]
        rw [hm]
        rfl
      rw [h1, h2]
    · rw [acquirePermit_events_pass false hm]
      simp

theorem save_failure_keeps_grant_witness :
    (acquirePermit [] 0 true).result = .ok ∧
    ((acquirePermit [] 0 false).result = .ioErr ∧
      (acquirePermit [] 0 false).requests = prune 0 [] ++ [0] ∧
      (acquirePermit [] 0 false).requests = (acquirePermit [] 0 true).requests ∧
      Event.semRel ∈ (acquirePermit [] 0 false).events) :=
  ⟨by decide, save_failure_keeps_grant [] 0 (by decide)⟩

/-! ### Claim C8: the snapshot round-trips -/

theorem decodeNums_map_num : ∀ ts : List Int, decodeNums (ts.map Json.num) = some ts := by
  intro ts
  induction ts with
  | nil => rfl
  | cons t ts ih =>
    show (match decodeNum (Json.num t), decodeNums (ts.map Json.num) with
      | some n, some ns => some (n :: ns)
      | _, _ => none) = some (t :: ts)
    rw [ih]
    rfl

theorem decodeTenant_encodeTenant (ts : List Int) :
    decodeTenant (encodeTenant ts) = some ts := by
  show decodeNums (ts.map Json.num) = some ts
  exact decodeNums_map_num ts

theorem decodeFields_encodeTenant :
    ∀ s : TenantMap, decodeFields (s.map (fun q => (q.1, encodeTenant q.2))) = some s := by
  intro s
  induction s with
  | nil => rfl
  | cons q s ih =>
    show (match decodeTenant (encodeTenant q.2),
        decodeFields (s.map (fun q => (q.1, encodeTenant q.2))) with
      | some ts, some rest => some ((q.1, ts) :: rest)
      | _, _ => none) = some (q :: s)
    rw [decodeTenant_encodeTenant, ih]

/-- Claim C8: persisting the in-memory tenant map with `save_state` and
loading the result back at construction reproduces every tenant's timestamp
sequence, in order, exactly — `load(save(s)) = s` (the code prunes neither
on save nor on load, so equality holds outright, which is equality modulo
pruning in particular). -/
theorem snapshot_round_trip (p : String) (L : Limiter) :
    (newLimiter p (some (saveState L))).tenants = L.tenants := by
  show (decodeFields (L.tenants.map (fun q => (q.1, encodeTenant q.2)))).getD [] =
    L.tenants
  rw [decodeFields_encodeTenant]
  rfl

/-! ### Claim C9 (amended): a single, durable operating mode -/

theorem attemptsSave_loop_false (tr : List Event)
    (h : ∀ e ∈ tr, isLoopEvent e = true) : attemptsSave tr = false := by
  unfold attemptsSave
  rw [List.any_eq_false]
  intro e he
  have hl := h e he
  cases e <;> simp_all [isLoopEvent]

theorem attemptsSave_eq (reqs : List Int) (now0 : Int) (saveOk : Bool) :
    attemptsSave (acquirePermit reqs now0 saveOk).events =
      ((acquirePermit reqs now0 saveOk).result != RLResult.dailyErr) := by
  cases hm : admitLoop (prune now0 reqs) now0 ((prune now0 reqs).length + 1) with
  | daily tr =>
    have hres : (acquirePermit reqs now0 saveOk).result = .dailyErr := by
      simp only [acquirePermit]
      rw [hm]
    rw [acquirePermit_events_daily saveOk hm, hres]
    have h1 := attemptsSave_loop_false tr ((admitLoop_daily_trace _ _ _ _ hm).1)
    simp only [attemptsSave] at h1 ⊢
    simp [List.any_append, h1]
  | pass f tr =>
    have h1 := attemptsSave_loop_false tr ((admitLoop_pass_trace _ _ _ _ _ hm).1)
    simp only [attemptsSave] at h1
    cases saveOk with
    | true =>
      have hres : (acquirePermit reqs now0 true).result = .ok := by
        simp only [acquirePermit]
        rw [hm]
        rfl
      rw [acquirePermit_events_pass true hm, hres]
      simp only [attemptsSave]
      simp [List.any_append, h1]
    | false =>
      have hres : (acquirePermit reqs now0 false).result = .ioErr := by
        simp only [acquirePermit]
        rw [hm]
        rfl
      rw [acquirePermit_events_pass false hm, hres]
      simp only [attemptsSave]
      simp [List.any_append, h1]
  | out =>
    have hres : (acquirePermit reqs now0 saveOk).result = .dailyErr := by
      simp only [acquirePermit]
      rw [hm]
    have he : (acquirePermit reqs now0 saveOk).events = [] := by
      simp only [acquirePermit]
      rw [hm]
    rw [hres, he]
    rfl

/-- Claim C9 (amended): the limiter has one operating mode, the durable
one: construction always takes a cache path (stored unchanged), a missing
cache file only means empty starting history, and a call performs the
durable `save_state` write exactly when the admission was granted (the only
calls that skip the write are daily-quota failures, which grant nothing) —
there is no in-memory-only configuration. -/
theorem durable_mode_only (p : String) (file : Option Json) (tid : String)
    (now0 : Int) (saveOk : Bool) :
    (newLimiter p file).cachePath = p ∧
    (newLimiter p none).tenants = [] ∧
    attemptsSave (acquirePermitL (newLimiter p file) tid now0 saveOk).1.events =
      ((acquirePermitL (newLimiter p file) tid now0 saveOk).1.result !=
        RLResult.dailyErr) :=
  ⟨rfl, rfl,
    attemptsSave_eq (lookupTenant (newLimiter p file).tenants tid) now0 saveOk⟩

/-! ### Claim C10: a call mutates only its own tenant's state -/

theorem lookupTenant_setTenant_ne :
    ∀ (m : TenantMap) (tid u : String) (v : List Int), u ≠ tid →
      lookupTenant (setTenant m tid v) u = lookupTenant m u := by
  intro m tid u v h
  induction m with
  | nil =>
    have hb : (tid == u) = false := by
      rw [beq_eq_false_iff_ne]
      exact Ne.symm h
    simp [setTenant, lookupTenant, hb]
  | cons q m ih =>
    by_cases hq : (q.1 == tid) = true
    · have hs : setTenant (q :: m) tid v = (tid, v) :: m := by
        simp [setTenant, hq]
      have hq1 : q.1 = tid := beq_iff_eq.mp hq
      have hqu : (tid == u) = false := by
        rw [beq_eq_false_iff_ne]
        exact Ne.symm h
      rw [hs]
      simp [lookupTenant, hqu, hq1]
    · have hs : setTenant (q :: m) tid v = q :: setTenant m tid v := by
        simp [setTenant, hq]
      rw [hs]
      by_cases hqu : (q.1 == u) = true
      · simp [lookupTenant, hqu]
      · simp [lookupTenant, hqu, ih]

/-- Claim C10: an `acquire_permit` call for tenant `tid` leaves every other
tenant's in-memory timestamp sequence unchanged (only `tid`'s entry is
pruned and appended to), and the persistence step changes nothing else in
the limiter (the cache path is untouched; `save_state` only reads the
map). -/
theorem acquire_frame (L : Limiter) (tid u : String) (now0 : Int) (saveOk : Bool)
    (h : u ≠ tid) :
    lookupTenant (acquirePermitL L tid now0 saveOk).2.tenants u =
      lookupTenant L.tenants u ∧
    (acquirePermitL L tid now0 saveOk).2.cachePath = L.cachePath :=
  ⟨lookupTenant_setTenant_ne L.tenants tid u _ h, rfl⟩

theorem acquire_frame_witness :
    ("b" : String) ≠ "a" ∧
    (lookupTenant
        (acquirePermitL (Limiter.mk [("a", [1]), ("b", [2, 3])] "p") "a" 9 true).2.tenants
        "b" =
      lookupTenant (Limiter.mk [("a", [1]), ("b", [2, 3])] "p").tenants "b" ∧
      (acquirePermitL (Limiter.mk [("a", [1]), ("b", [2, 3])] "p") "a" 9 true).2.cachePath =
        (Limiter.mk [("a", [1]), ("b", [2, 3])] "p").cachePath) :=
  ⟨by decide,
    acquire_frame (Limiter.mk [("a", [1]), ("b", [2, 3])] "p") "a" "b" 9 true (by decide)⟩

end XeroRL
